import Mathlib

/-!
Shallow embedding of the question-answering feature-engineering pipeline in
utils_nlp/models/transformers/question_answering.py, together with theorems
settling the frozen claims about it.  Python lists become Lean lists, Python
ints become Int (with Python's negative-index and slice semantics made
explicit), Python floats on logit-style scores are modelled as rationals,
and fallible Python code (raising IndexError or Exception, or returning
None) returns explicit result types.
-/

namespace QA

/-! ### Python list semantics helpers -/

/-- Python indexing l[i]: non-negative indices from the front, negative
indices count from the back, out-of-range raises (here: none). -/
def pyGet {α : Type} (l : List α) (i : Int) : Option α :=
  if 0 ≤ i then l.get? i.toNat
  else if 0 ≤ i + l.length then l.get? (i + l.length).toNat
  else none

/-- Clamp one bound of a Python slice to an actual offset into the list. -/
def pySliceIdx (n : Nat) (i : Int) : Nat :=
  if i < 0 then (max (i + n) 0).toNat else min i.toNat n

/-- Python slicing l[lo:hi] (step 1): negative bounds count from the back,
all bounds clamped, never raises. -/
def pySlice {α : Type} (l : List α) (lo hi : Int) : List α :=
  (l.take (pySliceIdx l.length hi)).drop (pySliceIdx l.length lo)

/-- Python str.find: index of the first occurrence of needle in hay,
none when absent (Python returns -1). -/
def listFind {α : Type} [DecidableEq α] (hay needle : List α) : Option Nat :=
  (List.range (hay.length + 1)).find? (fun i => needle.isPrefixOf (hay.drop i))

/-! ### DocSpan and the sliding-window partition (source: _create_qa_features,
the while-loop building doc_spans) -/

structure DocSpan where
  start : Nat
  length : Nat
deriving DecidableEq

/-- Index of the last token of a span, `doc_span.start + doc_span.length - 1`
computed in Int as Python does. -/
def spanLast (s : DocSpan) : Int := (s.start : Int) + (s.length : Int) - 1

/-- Whether a sub-word position lies inside a span: the source skips a span
when `position < doc_span.start` or `position > end`. -/
def spanContains (s : DocSpan) (p : Nat) : Prop :=
  (s.start : Int) ≤ (p : Int) ∧ (p : Int) ≤ spanLast s

instance (s : DocSpan) (p : Nat) : Decidable (spanContains s p) := by
  unfold spanContains; exact inferInstance

/-- Score of a span for a position:
`min(num_left_context, num_right_context) + 0.01 * doc_span.length`.
The Python float 0.01 is modelled as the exact rational 1/100; the score is
written as a single quotient ((100*min + length) / 100, one Rat.divInt) so
that it evaluates by kernel reduction, and spanScore_eq below proves it
equal to the formula min + (1/100) * length verbatim. -/
def spanScore (s : DocSpan) (p : Nat) : ℚ :=
  Rat.divInt
    (100 * min ((p : Int) - (s.start : Int)) (spanLast s - (p : Int)) + (s.length : Int))
    100

/-- The defined score is exactly `min(left, right) + 0.01 * length`. -/
theorem spanScore_eq (s : DocSpan) (p : Nat) :
    spanScore s p =
      ((min ((p : Int) - (s.start : Int)) (spanLast s - (p : Int)) : Int) : ℚ)
        + (1 / 100 : ℚ) * (s.length : ℚ) := by
  unfold spanScore
  rw [Rat.divInt_eq_div]
  push_cast
  ring

/-- The for-loop of _check_is_max_context: scan the enumerated spans keeping
the best (score, span_index) seen so far, a strictly greater score replacing
the incumbent. -/
def checkAux (p : Nat) : List (Nat × DocSpan) → Option (ℚ × Nat) → Option (ℚ × Nat)
  | [], best => best
  | (i, s) :: rest, best =>
    if spanContains s p then
      let score := spanScore s p
      match best with
      | none => checkAux p rest (some (score, i))
      | some (bs, bi) =>
        if bs < score then checkAux p rest (some (score, i))
        else checkAux p rest (some (bs, bi))
    else checkAux p rest best

/-- Source: _check_is_max_context.  Returns `cur_span_index == best_span_index`
(a comparison with Python None yields False, i.e. comparing with an Option). -/
def _check_is_max_context (doc_spans : List DocSpan) (cur_span_index : Nat)
    (position : Nat) : Bool :=
  decide ((checkAux position doc_spans.enum none).map Prod.snd = some cur_span_index)

/-- Source: the while-loop in _create_qa_features building doc_spans.
`length = min(len(all_doc_tokens) - start_offset, max_tokens_for_doc)`;
break once `start_offset + length == len(all_doc_tokens)`; otherwise
`start_offset += min(length, doc_stride)`.  The Python loop has no bound;
here fuel counts remaining iterations, and `numTokens` fuel suffices
whenever `max_tokens_for_doc >= 1` and `doc_stride >= 1`. -/
def docSpansLoop (numTokens maxTokensForDoc docStride : Nat) :
    Nat → Nat → List DocSpan
  | 0, _ => []
  | fuel + 1, start_offset =>
    if start_offset < numTokens then
      let length := min (numTokens - start_offset) maxTokensForDoc
      if start_offset + length = numTokens then [⟨start_offset, length⟩]
      else
        ⟨start_offset, length⟩ ::
          docSpansLoop numTokens maxTokensForDoc docStride fuel
            (start_offset + min length docStride)
    else []

/-- The doc_spans list of _create_qa_features for a sub-word document of
`numTokens` tokens. -/
def docSpansOf (numTokens maxTokensForDoc docStride : Nat) : List DocSpan :=
  docSpansLoop numTokens maxTokensForDoc docStride numTokens 0

/-! ### Example Builder (source: _create_qa_example) -/

/-- Source: the local _is_whitespace of _create_qa_example: space, tab, CR,
LF and the narrow no-break space U+202F. -/
def _is_whitespace (c : Char) : Bool :=
  c = ' ' || c = '\t' || c = '\r' || c = '\n' || c.toNat = 0x202F

/-- Python `d_tokens[-1] += c`: extend the last accumulated token.  The empty
case is unreachable in the scan (a non-whitespace predecessor guarantees a
token exists). -/
def appendToLast : List (List Char) → Char → List (List Char)
  | [], c => [[c]]
  | [t], c => [t ++ [c]]
  | t :: ts, c => t :: appendToLast ts c

/-- The character scan of _create_qa_example: build whitespace tokens and the
char_to_word_offset array (which records `len(d_tokens) - 1`, hence Int: it
is -1 over any leading whitespace). -/
def docScan : List Char → Bool → List (List Char) → List Int →
    List (List Char) × List Int
  | [], _, toks, offs => (toks, offs)
  | c :: cs, prev_is_whitespace, toks, offs =>
    if _is_whitespace c then
      docScan cs true toks (offs ++ [(toks.length : Int) - 1])
    else
      let toks' := if prev_is_whitespace then toks ++ [[c]] else appendToLast toks c
      docScan cs false toks' (offs ++ [(toks'.length : Int) - 1])

/-- d_tokens and char_to_word_offset of a document string. -/
def docTokenize (d_text : String) : List String × List Int :=
  let (toks, offs) := docScan d_text.data true [] []
  (toks.map (fun t => String.mk t), offs)

/-- Python str.split() whitespace (ASCII fragment). -/
def pyIsSpace (c : Char) : Bool :=
  c = ' ' || c = '\t' || c = '\n' || c = '\r' || c = '\x0b' || c = '\x0c'

/-- PyTorch-transformers whitespace_tokenize: strip, then split on runs of
whitespace (modelled directly: collect maximal non-whitespace runs). -/
def pySplitWs : List Char → List Char → List (List Char)
  | [], cur => if cur = [] then [] else [cur.reverse]
  | c :: cs, cur =>
    if pyIsSpace c then
      if cur = [] then pySplitWs cs [] else cur.reverse :: pySplitWs cs []
    else pySplitWs cs (c :: cur)

def whitespace_tokenize (text : String) : List String :=
  (pySplitWs text.data []).map (fun t => String.mk t)

/-- The answer fields of one raw QA input record.  Python passes answer_start
and answer_text duck-typed: either scalars or parallel collections; the
paired shapes model the caller contract (DataFrame columns of matching
shape). -/
inductive AnswerField where
  | scalar (answer_start : Int) (answer_text : String)
  | coll (answers : List (Int × String))
deriving DecidableEq

structure QAInput where
  doc_text : String
  question_text : String
  answers : AnswerField
  qa_id : Nat
  is_impossible : Bool
deriving DecidableEq

structure QAExample where
  qa_id : Nat
  doc_tokens : List String
  question_text : String
  orig_answer_text : String
  start_position : Option Int
  end_position : Option Int
  is_impossible : Bool
deriving DecidableEq

/-- Outcome of _create_qa_example: a built example, a silent drop (Python
`return` with no value), or a raised exception (the explicit
raise Exception, or an IndexError from list indexing). -/
inductive BuildResult where
  | ok (e : QAExample)
  | dropped
  | error
deriving DecidableEq

/-- The part of _create_qa_example after answer-field unwrapping, with the
scalar a_start and a_text in hand. -/
def buildExampleCore (inp : QAInput) (d_tokens : List String)
    (char_to_word_offset : List Int) (a_start : Int) (a_text : String)
    (is_training : Bool) : BuildResult :=
  if is_training then
    if inp.is_impossible then
      BuildResult.ok
        ⟨inp.qa_id, d_tokens, inp.question_text, a_text, some (-1), some (-1), true⟩
    else
      -- start_position = char_to_word_offset[a_start]
      -- end_position = char_to_word_offset[a_start + len(a_text) - 1]
      match pyGet char_to_word_offset a_start,
            pyGet char_to_word_offset (a_start + a_text.length - 1) with
      | some start_position, some end_position =>
        let actual_text :=
          String.intercalate " " (pySlice d_tokens start_position (end_position + 1))
        let cleaned_answer_text := String.intercalate " " (whitespace_tokenize a_text)
        if listFind actual_text.data cleaned_answer_text.data = none then
          BuildResult.dropped
        else
          BuildResult.ok
            ⟨inp.qa_id, d_tokens, inp.question_text, a_text,
             some start_position, some end_position, false⟩
      | _, _ => BuildResult.error
  else
    BuildResult.ok
      ⟨inp.qa_id, d_tokens, inp.question_text, a_text, none, none, inp.is_impossible⟩

/-- Source: _create_qa_example.  Scans the document into whitespace tokens,
unwraps a collection-shaped answer field (raising when the collection length
is not 1 in training answerable mode, and hitting `a_start[0]` on an empty
collection otherwise), then maps character offsets to token positions. -/
def _create_qa_example (inp : QAInput) (is_training : Bool) : BuildResult :=
  let (d_tokens, char_to_word_offset) := docTokenize inp.doc_text
  match inp.answers with
  | AnswerField.scalar a_start a_text =>
    buildExampleCore inp d_tokens char_to_word_offset a_start a_text is_training
  | AnswerField.coll ps =>
    if ps.length ≠ 1 ∧ is_training = true ∧ inp.is_impossible = false then
      BuildResult.error
    else
      match ps with
      | [] => BuildResult.error
      | (a_start, a_text) :: _ =>
        buildExampleCore inp d_tokens char_to_word_offset a_start a_text is_training

/-! ### Feature Assembler (source: _create_qa_features) -/

structure QAFeature where
  unique_id : Int
  qa_id : Nat
  tokens : List String
  token_to_orig_map : List (Nat × Nat)
  token_is_max_context : List (Nat × Bool)
  input_ids : List Int
  input_mask : List Nat
  segment_ids : List Nat
  start_position : Option Int
  end_position : Option Int
  cls_index : Nat
  p_mask : List Nat
  paragraph_len : Nat
deriving DecidableEq

/-- Python range(a, b): the integers a, a+1, ..., b-1. -/
def intRange (a b : Int) : List Int :=
  (List.range (b - a).toNat).map (fun i => a + i)

/-- Source: _improve_answer_span.  Search all (new_start, new_end) windows
inside the projected range, new_start ascending and new_end descending, for
one whose joined sub-word text equals the tokenized answer text; keep the
original projection when none matches. -/
def _improve_answer_span (tokenize : String → List String) (doc_tokens : List String)
    (input_start input_end : Int) (orig_answer_text : String) : Int × Int :=
  let tok_answer_text := String.intercalate " " (tokenize orig_answer_text)
  let found := (intRange input_start (input_end + 1)).findSome? (fun new_start =>
    ((intRange new_start (input_end + 1)).reverse).findSome? (fun new_end =>
      if String.intercalate " " (pySlice doc_tokens new_start (new_end + 1))
          = tok_answer_text
      then some (new_start, new_end) else none))
  found.getD (input_start, input_end)

/-- The per-document-token sub-word maps of _create_qa_features:
tok_to_orig_index, orig_to_tok_index and all_doc_tokens. -/
def subwordMaps (tokenize : String → List String) (doc_tokens : List String) :
    List Nat × List Nat × List String :=
  doc_tokens.enum.foldl
    (fun (acc : List Nat × List Nat × List String) (it : Nat × String) =>
      let subs := tokenize it.2
      (acc.1 ++ subs.map (fun _ => it.1), acc.2.1 ++ [acc.2.2.length], acc.2.2 ++ subs))
    ([], [], [])

/-- The body of the for-loop over doc_spans in _create_qa_features, for one
span.  cls_token_at_end is False and mask_padding_with_zero is True in the
source, so the CLS token leads and cls_index = 0; pad_token = 0,
pad_token_segment_id = 0.  Indexing of all_doc_tokens and tok_to_orig_index
is always in range for spans of the sliding-window loop, so getD stands in
for plain indexing. -/
def mkFeature (doc_spans : List DocSpan) (doc_span_index : Nat) (doc_span : DocSpan)
    (query_tokens all_doc_tokens : List String) (tok_to_orig_index : List Nat)
    (tokToId : String → Int) (tokPos : Option (Int × Int)) (ex : QAExample)
    (uid : Int) (is_training : Bool) (max_seq_len : Nat) : QAFeature :=
  let q := query_tokens.length
  let L := doc_span.length
  let paragraph := (List.range L).map (fun i => all_doc_tokens.getD (doc_span.start + i) "")
  let tokens := ["[CLS]"] ++ query_tokens ++ ["[SEP]"] ++ paragraph ++ ["[SEP]"]
  let token_to_orig_map :=
    (List.range L).map (fun i => (q + 2 + i, tok_to_orig_index.getD (doc_span.start + i) 0))
  let token_is_max_context :=
    (List.range L).map
      (fun i => (q + 2 + i, _check_is_max_context doc_spans doc_span_index (doc_span.start + i)))
  let segment_ids := [0] ++ List.replicate q 0 ++ [0] ++ List.replicate L 1 ++ [1]
  let p_mask := [0] ++ List.replicate q 1 ++ [1] ++ List.replicate L 0 ++ [1]
  let cls_index : Nat := 0
  let input_ids := tokens.map tokToId
  let input_mask := List.replicate input_ids.length 1
  let pad_len := max_seq_len - input_ids.length
  let input_ids := input_ids ++ List.replicate pad_len 0
  let input_mask := input_mask ++ List.replicate pad_len 0
  let segment_ids := segment_ids ++ List.replicate pad_len 0
  let p_mask := p_mask ++ List.replicate pad_len 1
  let doc_start := (doc_span.start : Int)
  let doc_end := (doc_span.start : Int) + (doc_span.length : Int) - 1
  let positions : Option Int × Option Int :=
    if is_training then
      match tokPos with
      | none => (none, none)
      | some (tsp, tep) =>
        if ex.is_impossible then (some (cls_index : Int), some (cls_index : Int))
        else if tsp ≥ doc_start ∧ tep ≤ doc_end then
          let doc_offset := (q : Int) + 2
          (some (tsp - doc_start + doc_offset), some (tep - doc_start + doc_offset))
        else
          -- out_of_span: start_position = end_position = 0, which the final
          -- span_is_impossible assignment overwrites with cls_index = 0
          (some (cls_index : Int), some (cls_index : Int))
    else (none, none)
  { unique_id := uid
    qa_id := ex.qa_id
    tokens := tokens
    token_to_orig_map := token_to_orig_map
    token_is_max_context := token_is_max_context
    input_ids := input_ids
    input_mask := input_mask
    segment_ids := segment_ids
    start_position := positions.1
    end_position := positions.2
    cls_index := cls_index
    p_mask := p_mask
    paragraph_len := L }

/-- Outcome of _create_qa_features: the returned feature list, the implicit
Python None when the for-loop body never runs (empty doc_spans), or an
IndexError raised while projecting the answer to sub-word positions. -/
inductive FeaturesResult where
  | ok (features : List QAFeature)
  | returnedNone
  | error
deriving DecidableEq

/-- Source: _create_qa_features.  The source's `return qa_features` statement
is indented inside the for-loop over doc_spans, so the function returns at
the end of the first iteration: exactly the first document span yields a
feature, whatever the number of spans. -/
def _create_qa_features (tokenize : String → List String) (tokToId : String → Int)
    (ex : QAExample) (unique_id : Int) (is_training : Bool)
    (max_question_length max_seq_len doc_stride : Nat) : FeaturesResult :=
  let query_tokens0 := tokenize ex.question_text
  let query_tokens :=
    if query_tokens0.length > max_question_length then query_tokens0.take max_question_length
    else query_tokens0
  let maps := subwordMaps tokenize ex.doc_tokens
  let tok_to_orig_index := maps.1
  let orig_to_tok_index := maps.2.1
  let all_doc_tokens := maps.2.2
  let tokPositions : Except Unit (Option (Int × Int)) :=
    if is_training then
      if ex.is_impossible then Except.ok (some (-1, -1))
      else
        match ex.start_position, ex.end_position with
        | some sp, some ep =>
          match pyGet orig_to_tok_index sp with
          | none => Except.error ()
          | some tsp =>
            let teOut : Except Unit Int :=
              if ep < (ex.doc_tokens.length : Int) - 1 then
                match pyGet orig_to_tok_index (ep + 1) with
                | none => Except.error ()
                | some x => Except.ok ((x : Int) - 1)
              else Except.ok ((all_doc_tokens.length : Int) - 1)
            match teOut with
            | Except.error _ => Except.error ()
            | Except.ok tep =>
              Except.ok (some (_improve_answer_span tokenize all_doc_tokens
                (tsp : Int) tep ex.orig_answer_text))
        | _, _ => Except.error ()
    else Except.ok none
  let max_tokens_for_doc := max_seq_len - query_tokens.length - 3
  match tokPositions with
  | Except.error _ => FeaturesResult.error
  | Except.ok tokPos =>
    let doc_spans := docSpansOf all_doc_tokens.length max_tokens_for_doc doc_stride
    match doc_spans with
    | [] => FeaturesResult.returnedNone
    | span0 :: _ =>
      let uid := unique_id + (if is_training then 1 else 2)
      FeaturesResult.ok
        [mkFeature doc_spans 0 span0 query_tokens all_doc_tokens tok_to_orig_index
          tokToId tokPos ex uid is_training max_seq_len]

/-! ### Text Reconstructor (source: _get_final_text) -/

/-- Source: the local _strip_spaces of _get_final_text.  Returns the text
with spaces removed together with the map from no-space index to original
index (an OrderedDict with consecutive keys 0.., here a list whose nth
entry is the original position of no-space character n). -/
def _strip_spaces : Nat → List Char → List Char × List Nat
  | _, [] => ([], [])
  | i, c :: cs =>
    let r := _strip_spaces (i + 1) cs
    if c = ' ' then r else (c :: r.1, i :: r.2)

def stripSpaces (text : List Char) : List Char × List Nat := _strip_spaces 0 text

/-- Python dict lookup where later insertions overwrite earlier ones. -/
def dictGetI (d : List (Nat × Nat)) (i : Int) : Option Nat :=
  if i < 0 then none else List.lookup i.toNat d.reverse

/-- The tok_s_to_ns_map loop: for (i, tok_index) in tok_ns_to_s_map.items(),
tok_s_to_ns_map[tok_index] = i. -/
def invertMap (m : List Nat) : List (Nat × Nat) :=
  m.enum.map (fun p => (p.2, p.1))

/-- tok_text = " ".join(BasicTokenizer(do_lower_case).tokenize(orig_text));
the BasicTokenizer is an external library capability and is passed in. -/
def tokTextOf (basicTokenize : Bool → List Char → List (List Char))
    (do_lower_case : Bool) (orig_text : List Char) : List Char :=
  List.intercalate [' '] (basicTokenize do_lower_case orig_text)

/-- Source: _get_final_text.  Projects the tokenized prediction back onto the
original text, falling back to the original text whenever any alignment
stage fails. -/
def _get_final_text (basicTokenize : Bool → List Char → List (List Char))
    (do_lower_case : Bool) (pred_text orig_text : List Char) : List Char :=
  let tok_text := tokTextOf basicTokenize do_lower_case orig_text
  match listFind tok_text pred_text with
  | none => orig_text
  | some start_position =>
    let end_position : Int := (start_position : Int) + (pred_text.length : Int) - 1
    let os := stripSpaces orig_text
    let ts := stripSpaces tok_text
    if os.1.length ≠ ts.1.length then orig_text
    else
      let tok_s_to_ns := invertMap ts.2
      match dictGetI tok_s_to_ns (start_position : Int) with
      | none => orig_text
      | some ns_start =>
        match os.2.get? ns_start with
        | none => orig_text
        | some orig_start =>
          match dictGetI tok_s_to_ns end_position with
          | none => orig_text
          | some ns_end =>
            match os.2.get? ns_end with
            | none => orig_text
            | some orig_end => (orig_text.take (orig_end + 1)).drop orig_start

/-! ### Score utilities (source: _get_best_indexes) -/

/-- Insert one enumerated score into a descending-sorted accumulator, after
every entry whose score is at least as large; with the accumulator built
left to right over the enumeration this realizes Python's stable
sorted(enumerate(logits), key=score, reverse=True). -/
def insertDesc (x : Nat × ℚ) : List (Nat × ℚ) → List (Nat × ℚ)
  | [] => [x]
  | y :: ys => if x.2 ≤ y.2 then y :: insertDesc x ys else x :: y :: ys

def sortDescStable (l : List (Nat × ℚ)) : List (Nat × ℚ) :=
  l.foldl (fun acc x => insertDesc x acc) []

/-- Source: _get_best_indexes.  Stable descending sort of the enumerated
logits, keeping the first n_best_size indices (none for n_best_size <= 0,
everything when it exceeds the length). -/
def _get_best_indexes (logits : List ℚ) (n_best_size : Int) : List Nat :=
  ((sortDescStable logits.enum).map Prod.fst).take n_best_size.toNat

/-! ### Claim C1 -/

/-- C1: the claim states that _create_qa_features returns exactly k features
for an Example whose document splits into k >= 1 DocSpans, one per span.
The code contradicts its own documentation ("A single QAExample can derive
multiple QAFeatures if the document is too long"): its `return qa_features`
statement is indented inside the for-loop over doc_spans, so the first span
alone produces a feature.  Here a document of 6 sub-word tokens with
max_seq_len = 8, a 1-sub-word question and doc_stride = 2 splits into the
2 spans (0,4) and (2,4), yet the function returns a single feature (the one
for span (0,4)). -/
theorem C1_two_spans_one_feature :
    (docSpansOf 6 4 2).length = 2 ∧
    _create_qa_features (fun s => [s]) (fun _ => 0)
        ⟨7, ["t1", "t2", "t3", "t4", "t5", "t6"], "q", "", none, none, false⟩
        0 false 10 8 2 =
      FeaturesResult.ok
        [⟨2, 7, ["[CLS]", "q", "[SEP]", "t1", "t2", "t3", "t4", "[SEP]"],
          [(3, 0), (4, 1), (5, 2), (6, 3)],
          [(3, true), (4, true), (5, true), (6, false)],
          [0, 0, 0, 0, 0, 0, 0, 0], [1, 1, 1, 1, 1, 1, 1, 1],
          [0, 0, 0, 1, 1, 1, 1, 1], none, none, 0,
          [0, 1, 1, 0, 0, 0, 0, 1], 4⟩] := by
  exact ⟨by decide, by decide⟩

/-! ### Claim C2 -/

/-- C2, counterexample: in `"Mary had a little lamb"` the character offset of
the answer `"a little lamb"` is 9, not 11 as the claim states (offset 11 is
the 'l' of "little").  With answer_start = 11 the end-character index is
11 + 13 - 1 = 23, beyond the 22-character document, so
`char_to_word_offset[answer_start + len(answer_text) - 1]` raises IndexError
instead of yielding the claimed Example. -/
theorem C2_offset11_raises :
    _create_qa_example
      ⟨"Mary had a little lamb", "What did Mary have?",
        AnswerField.scalar 11 "a little lamb", 7, false⟩ true
      = BuildResult.error := by
  decide

/-- C2, amended: with answer_start = 9, the actual character offset of "a",
the Example Builder yields doc_tokens ["Mary","had","a","little","lamb"],
start_position = 2, end_position = 4, and the answer text is recovered
exactly (the example is not dropped). -/
theorem C2_offset9_example :
    _create_qa_example
      ⟨"Mary had a little lamb", "What did Mary have?",
        AnswerField.scalar 9 "a little lamb", 7, false⟩ true
      = BuildResult.ok
          ⟨7, ["Mary", "had", "a", "little", "lamb"], "What did Mary have?",
            "a little lamb", some 2, some 4, false⟩ := by
  decide

/-! ### Claim C3 -/

/-- Position fields of an Example built by buildExampleCore: -1 sentinels
exactly in training mode for unanswerable questions; unset (Python None) in
inference mode. -/
theorem buildExampleCore_positions (inp : QAInput) (d_tokens : List String)
    (c2w : List Int) (a_start : Int) (a_text : String) (b : Bool) (e : QAExample)
    (h : buildExampleCore inp d_tokens c2w a_start a_text b = BuildResult.ok e) :
    (b = true → inp.is_impossible = true →
      e.start_position = some (-1) ∧ e.end_position = some (-1)) ∧
    (b = false → e.start_position = none ∧ e.end_position = none) := by
  unfold buildExampleCore at h
  cases b with
  | false =>
    simp only [Bool.false_eq_true, if_false] at h
    cases h
    simp
  | true =>
    simp only [if_true] at h
    by_cases himp : inp.is_impossible
    · simp only [himp, if_true] at h
      cases h
      simp
    · simp only [himp, if_false] at h
      refine ⟨fun _ h2 => absurd h2 himp, fun hb => by cases hb⟩

/-- C3, counterexample: the claim says the sentinel -1 is used both for
unanswerable questions and in inference mode; in inference mode the code in
fact leaves start_position and end_position as Python None (never -1). -/
theorem C3_inference_positions_none :
    _create_qa_example ⟨"a b", "q", AnswerField.scalar 0 "a", 7, false⟩ false
      = BuildResult.ok ⟨7, ["a", "b"], "q", "a", none, none, false⟩ := by
  decide

/-- C3, amended: for every Example the builder returns, training mode with an
unanswerable question sets both positions to the -1 sentinel, while inference
mode (is_training = False) leaves both positions unset (None), never -1. -/
theorem C3_sentinel_positions (inp : QAInput) (b : Bool) (e : QAExample)
    (h : _create_qa_example inp b = BuildResult.ok e) :
    (b = true → inp.is_impossible = true →
      e.start_position = some (-1) ∧ e.end_position = some (-1)) ∧
    (b = false → e.start_position = none ∧ e.end_position = none) := by
  obtain ⟨doc, qt, ans, qid, imp⟩ := inp
  cases ans with
  | scalar a_start a_text =>
    simp only [_create_qa_example] at h
    exact buildExampleCore_positions _ _ _ _ _ _ _ h
  | coll ps =>
    simp only [_create_qa_example] at h
    by_cases hc : ps.length ≠ 1 ∧ b = true ∧ imp = false
    · rw [if_pos hc] at h; cases h
    · rw [if_neg hc] at h
      cases ps with
      | nil => cases h
      | cons p rest => exact buildExampleCore_positions _ _ _ _ _ _ _ h

/-- C3, witness: a concrete training-mode unanswerable input on which the
amended theorem applies and yields the -1 sentinels. -/
theorem C3_sentinel_positions_witness :
    (QAExample.mk 7 ["a", "b"] "q" "a" (some (-1)) (some (-1)) true).start_position
        = some (-1) ∧
    (QAExample.mk 7 ["a", "b"] "q" "a" (some (-1)) (some (-1)) true).end_position
        = some (-1) :=
  (C3_sentinel_positions ⟨"a b", "q", AnswerField.scalar 0 "a", 7, true⟩ true
    ⟨7, ["a", "b"], "q", "a", some (-1), some (-1), true⟩ (by decide)).1 rfl rfl

/-! ### Claim C5 -/

/-- Invariants of the sliding-window loop, established by induction on the
fuel: starting from any offset start < N with N - start ≤ fuel, the produced
spans are nonempty, begin exactly at start, have length
min(remaining, max_tokens_for_doc), chain by
next.start = prev.start + min(prev.length, doc_stride), cover every position
of [start, N), and the last one ends exactly at N. -/
theorem docSpansLoop_props (N maxT stride : Nat) (hT : 1 ≤ maxT) (hS : 1 ≤ stride) :
    ∀ fuel start, start < N → N - start ≤ fuel →
      (∀ sp ∈ docSpansLoop N maxT stride fuel start,
        sp.length = min (N - sp.start) maxT ∧ start ≤ sp.start ∧ sp.start < N) ∧
      ((docSpansLoop N maxT stride fuel start).head?.map DocSpan.start = some start) ∧
      List.Chain' (fun a b => b.start = a.start + min a.length stride)
        (docSpansLoop N maxT stride fuel start) ∧
      (∀ p, start ≤ p → p < N →
        ∃ sp ∈ docSpansLoop N maxT stride fuel start,
          sp.start ≤ p ∧ p < sp.start + sp.length) ∧
      ((docSpansLoop N maxT stride fuel start).getLast?.map
        (fun sp => sp.start + sp.length) = some N) := by
  intro fuel
  induction fuel with
  | zero => intro start h1 h2; omega
  | succ fuel ih =>
    intro start h1 h2
    have hrem : 1 ≤ N - start := by omega
    have hlen1 : 1 ≤ min (N - start) maxT := le_min hrem hT
    have hlenN : start + min (N - start) maxT ≤ N := by
      have := min_le_left (N - start) maxT
      omega
    simp only [docSpansLoop, if_pos h1]
    by_cases hbreak : start + min (N - start) maxT = N
    · rw [if_pos hbreak]
      refine ⟨?_, by simp, by simp, ?_, by simp [hbreak]⟩
      · intro sp hsp
        rw [List.mem_singleton] at hsp
        subst hsp
        exact ⟨rfl, le_refl _, h1⟩
      · intro p hp1 hp2
        refine ⟨⟨start, min (N - start) maxT⟩, List.mem_singleton_self _, hp1, ?_⟩
        show p < start + min (N - start) maxT
        omega
    · rw [if_neg hbreak]
      have hstep1 : 1 ≤ min (min (N - start) maxT) stride := le_min hlen1 hS
      have hstepLe : min (min (N - start) maxT) stride ≤ min (N - start) maxT :=
        min_le_left _ _
      have h1' : start + min (min (N - start) maxT) stride < N := by omega
      have h2' : N - (start + min (min (N - start) maxT) stride) ≤ fuel := by omega
      obtain ⟨ihMem, ihHead, ihChain, ihCover, ihLast⟩ := ih _ h1' h2'
      have hne : docSpansLoop N maxT stride fuel
          (start + min (min (N - start) maxT) stride) ≠ [] := by
        intro hnil
        rw [hnil] at ihHead
        simp at ihHead
      refine ⟨?_, by simp, ?_, ?_, ?_⟩
      · intro sp hsp
        rcases List.mem_cons.mp hsp with hsp | hsp
        · subst hsp
          exact ⟨rfl, le_refl _, h1⟩
        · obtain ⟨hl, hs1, hs2⟩ := ihMem sp hsp
          exact ⟨hl, by omega, hs2⟩
      · rw [List.chain'_cons']
        refine ⟨?_, ihChain⟩
        intro y hy
        rw [Option.mem_def] at hy
        rw [hy, Option.map_some'] at ihHead
        exact Option.some.inj ihHead
      · intro p hp1 hp2
        by_cases hcase : p < start + min (N - start) maxT
        · exact ⟨⟨start, min (N - start) maxT⟩, List.mem_cons_self _ _, hp1, hcase⟩
        · obtain ⟨sp, hmem, hc1, hc2⟩ := ihCover p (by omega) hp2
          exact ⟨sp, List.mem_cons_of_mem _ hmem, hc1, hc2⟩
      · obtain ⟨r, rs, hrw⟩ := List.exists_cons_of_ne_nil hne
        rw [hrw] at ihLast ⊢
        rw [List.getLast?_cons_cons]
        exact ihLast

/-- C5: for every sub-word document of N >= 1 tokens, max_tokens_for_doc >= 1
and doc_stride >= 1, the DocSpans built by the sliding-window loop fully
cover [0, N) with no gaps, each span has length
min(remaining_tokens, max_tokens_for_doc), each next span's start equals the
previous start plus min(previous_length, doc_stride), and the last span ends
exactly at token N-1 (that is, its start + length equals N). -/
theorem C5_sliding_window_invariants (N maxT stride : Nat)
    (hN : 1 ≤ N) (hT : 1 ≤ maxT) (hS : 1 ≤ stride) :
    (∀ sp ∈ docSpansOf N maxT stride, sp.length = min (N - sp.start) maxT) ∧
    List.Chain' (fun a b => b.start = a.start + min a.length stride)
      (docSpansOf N maxT stride) ∧
    (∀ p, p < N →
      ∃ sp ∈ docSpansOf N maxT stride, sp.start ≤ p ∧ p < sp.start + sp.length) ∧
    ((docSpansOf N maxT stride).getLast?.map (fun sp => sp.start + sp.length)
      = some N) := by
  obtain ⟨hmem, _, hchain, hcover, hlast⟩ :=
    docSpansLoop_props N maxT stride hT hS N 0 hN (by omega)
  exact ⟨fun sp h => (hmem sp h).1, hchain,
    fun p hp => hcover p (Nat.zero_le _) hp, hlast⟩

/-- C5, witness: the invariants instantiated at N = 5, max_tokens_for_doc = 3,
doc_stride = 2 (spans (0,3), (2,3), (4,1)). -/
theorem C5_sliding_window_invariants_witness :
    (∀ sp ∈ docSpansOf 5 3 2, sp.length = min (5 - sp.start) 3) ∧
    List.Chain' (fun a b => b.start = a.start + min a.length 2) (docSpansOf 5 3 2) ∧
    (∀ p, p < 5 → ∃ sp ∈ docSpansOf 5 3 2, sp.start ≤ p ∧ p < sp.start + sp.length) ∧
    ((docSpansOf 5 3 2).getLast?.map (fun sp => sp.start + sp.length) = some 5) :=
  C5_sliding_window_invariants 5 3 2 (by decide) (by decide) (by decide)

/-! ### Claim C10 -/

/-- Dropping exactly the first summand of an append. -/
theorem drop_pad {α : Type} (l₁ l₂ : List α) (n : Nat) (h : l₁.length = n) :
    (l₁ ++ l₂).drop n = l₂ := by
  subst h
  exact List.drop_left l₁ l₂

/-- C10: every feature assembled for a span of the sliding window, under the
precondition that the truncated question leaves room for at least one
paragraph token (len(query_tokens) + 4 <= max_seq_len, i.e.
max_tokens_for_doc >= 1), has its four parallel arrays input_ids, input_mask,
segment_ids and p_mask of length exactly max_seq_len, padded respectively
with the pad token id 0, with 0, with the pad segment id 0, and with 1. -/
theorem C10_feature_arrays_padded (doc_spans : List DocSpan) (idx : Nat)
    (sp : DocSpan) (query_tokens all_doc_tokens : List String) (t2o : List Nat)
    (tokToId : String → Int) (tokPos : Option (Int × Int)) (ex : QAExample)
    (uid : Int) (tr : Bool) (max_seq_len doc_stride : Nat)
    (hstride : 1 ≤ doc_stride)
    (hq : query_tokens.length + 4 ≤ max_seq_len)
    (hsp : sp ∈ docSpansOf all_doc_tokens.length
      (max_seq_len - query_tokens.length - 3) doc_stride) :
    (mkFeature doc_spans idx sp query_tokens all_doc_tokens t2o tokToId tokPos
        ex uid tr max_seq_len).input_ids.length = max_seq_len ∧
    (mkFeature doc_spans idx sp query_tokens all_doc_tokens t2o tokToId tokPos
        ex uid tr max_seq_len).input_mask.length = max_seq_len ∧
    (mkFeature doc_spans idx sp query_tokens all_doc_tokens t2o tokToId tokPos
        ex uid tr max_seq_len).segment_ids.length = max_seq_len ∧
    (mkFeature doc_spans idx sp query_tokens all_doc_tokens t2o tokToId tokPos
        ex uid tr max_seq_len).p_mask.length = max_seq_len ∧
    (mkFeature doc_spans idx sp query_tokens all_doc_tokens t2o tokToId tokPos
        ex uid tr max_seq_len).input_ids.drop
        (query_tokens.length + sp.length + 3)
      = List.replicate (max_seq_len - (query_tokens.length + sp.length + 3)) 0 ∧
    (mkFeature doc_spans idx sp query_tokens all_doc_tokens t2o tokToId tokPos
        ex uid tr max_seq_len).input_mask.drop
        (query_tokens.length + sp.length + 3)
      = List.replicate (max_seq_len - (query_tokens.length + sp.length + 3)) 0 ∧
    (mkFeature doc_spans idx sp query_tokens all_doc_tokens t2o tokToId tokPos
        ex uid tr max_seq_len).segment_ids.drop
        (query_tokens.length + sp.length + 3)
      = List.replicate (max_seq_len - (query_tokens.length + sp.length + 3)) 0 ∧
    (mkFeature doc_spans idx sp query_tokens all_doc_tokens t2o tokToId tokPos
        ex uid tr max_seq_len).p_mask.drop
        (query_tokens.length + sp.length + 3)
      = List.replicate (max_seq_len - (query_tokens.length + sp.length + 3)) 1 := by
  have hN1 : 1 ≤ all_doc_tokens.length := by
    rcases Nat.eq_zero_or_pos all_doc_tokens.length with h0 | h1
    · rw [h0] at hsp
      simp [docSpansOf, docSpansLoop] at hsp
    · exact h1
  have hT : 1 ≤ max_seq_len - query_tokens.length - 3 := by omega
  obtain ⟨hmem, _, _, _, _⟩ :=
    docSpansLoop_props all_doc_tokens.length
      (max_seq_len - query_tokens.length - 3) doc_stride hT hstride
      all_doc_tokens.length 0 hN1 (by omega)
  have hL : sp.length ≤ max_seq_len - query_tokens.length - 3 := by
    have h := (hmem sp hsp).1
    rw [h]
    exact min_le_right _ _
  have htot : query_tokens.length + sp.length + 3 ≤ max_seq_len := by omega
  simp only [mkFeature]
  set base := ["[CLS]"] ++ query_tokens ++ ["[SEP]"]
    ++ (List.range sp.length).map (fun i => all_doc_tokens.getD (sp.start + i) "")
    ++ ["[SEP]"] with hbase_def
  have hb : base.length = query_tokens.length + sp.length + 3 := by
    rw [hbase_def]
    simp
    omega
  have hbm : (base.map tokToId).length = query_tokens.length + sp.length + 3 := by
    rw [List.length_map]
    exact hb
  refine ⟨?_, ?_, ?_, ?_, ?_, ?_, ?_, ?_⟩
  · rw [List.length_append, hbm, List.length_replicate]
    omega
  · rw [List.length_append, List.length_replicate, List.length_replicate, hbm]
    omega
  · simp only [List.length_append, List.length_cons, List.length_nil,
      List.length_replicate, hbm]
    omega
  · simp only [List.length_append, List.length_cons, List.length_nil,
      List.length_replicate, hbm]
    omega
  · rw [hbm, drop_pad _ _ _ hbm]
  · rw [hbm, drop_pad _ _ _ (by rw [List.length_replicate])]
  · rw [hbm, drop_pad _ _ _ (by simp only [List.length_append, List.length_cons,
      List.length_nil, List.length_replicate]; omega)]
  · rw [hbm, drop_pad _ _ _ (by simp only [List.length_append, List.length_cons,
      List.length_nil, List.length_replicate]; omega)]

/-- C10, witness: the padding post-condition instantiated at a concrete
feature (question of 1 sub-word, span (0,4) of a 6-token document,
max_seq_len = 8). -/
theorem C10_feature_arrays_padded_witness :
    (mkFeature (docSpansOf 6 4 2) 0 ⟨0, 4⟩ ["q"] ["t1", "t2", "t3", "t4", "t5", "t6"]
        [0, 1, 2, 3, 4, 5] (fun _ => 0) none
        ⟨7, ["t1", "t2", "t3", "t4", "t5", "t6"], "q", "", none, none, false⟩
        2 false 8).input_ids.length = 8 ∧
    (mkFeature (docSpansOf 6 4 2) 0 ⟨0, 4⟩ ["q"] ["t1", "t2", "t3", "t4", "t5", "t6"]
        [0, 1, 2, 3, 4, 5] (fun _ => 0) none
        ⟨7, ["t1", "t2", "t3", "t4", "t5", "t6"], "q", "", none, none, false⟩
        2 false 8).input_mask.length = 8 ∧
    (mkFeature (docSpansOf 6 4 2) 0 ⟨0, 4⟩ ["q"] ["t1", "t2", "t3", "t4", "t5", "t6"]
        [0, 1, 2, 3, 4, 5] (fun _ => 0) none
        ⟨7, ["t1", "t2", "t3", "t4", "t5", "t6"], "q", "", none, none, false⟩
        2 false 8).segment_ids.length = 8 ∧
    (mkFeature (docSpansOf 6 4 2) 0 ⟨0, 4⟩ ["q"] ["t1", "t2", "t3", "t4", "t5", "t6"]
        [0, 1, 2, 3, 4, 5] (fun _ => 0) none
        ⟨7, ["t1", "t2", "t3", "t4", "t5", "t6"], "q", "", none, none, false⟩
        2 false 8).p_mask.length = 8 ∧
    (mkFeature (docSpansOf 6 4 2) 0 ⟨0, 4⟩ ["q"] ["t1", "t2", "t3", "t4", "t5", "t6"]
        [0, 1, 2, 3, 4, 5] (fun _ => 0) none
        ⟨7, ["t1", "t2", "t3", "t4", "t5", "t6"], "q", "", none, none, false⟩
        2 false 8).input_ids.drop 8 = List.replicate 0 0 ∧
    (mkFeature (docSpansOf 6 4 2) 0 ⟨0, 4⟩ ["q"] ["t1", "t2", "t3", "t4", "t5", "t6"]
        [0, 1, 2, 3, 4, 5] (fun _ => 0) none
        ⟨7, ["t1", "t2", "t3", "t4", "t5", "t6"], "q", "", none, none, false⟩
        2 false 8).input_mask.drop 8 = List.replicate 0 0 ∧
    (mkFeature (docSpansOf 6 4 2) 0 ⟨0, 4⟩ ["q"] ["t1", "t2", "t3", "t4", "t5", "t6"]
        [0, 1, 2, 3, 4, 5] (fun _ => 0) none
        ⟨7, ["t1", "t2", "t3", "t4", "t5", "t6"], "q", "", none, none, false⟩
        2 false 8).segment_ids.drop 8 = List.replicate 0 0 ∧
    (mkFeature (docSpansOf 6 4 2) 0 ⟨0, 4⟩ ["q"] ["t1", "t2", "t3", "t4", "t5", "t6"]
        [0, 1, 2, 3, 4, 5] (fun _ => 0) none
        ⟨7, ["t1", "t2", "t3", "t4", "t5", "t6"], "q", "", none, none, false⟩
        2 false 8).p_mask.drop 8 = List.replicate 0 1 :=
  C10_feature_arrays_padded (docSpansOf 6 4 2) 0 ⟨0, 4⟩ ["q"]
    ["t1", "t2", "t3", "t4", "t5", "t6"] [0, 1, 2, 3, 4, 5] (fun _ => 0) none
    ⟨7, ["t1", "t2", "t3", "t4", "t5", "t6"], "q", "", none, none, false⟩
    2 false 8 2 (by decide) (by decide) (by decide)


/-! ### Claim C4 -/

/-- Invariant of the scan in _check_is_max_context, after consuming the spans
of index < k: the accumulator is none exactly when no span before k contains
p; otherwise it holds the score and index of the first best-scoring
containing span among those before k. -/
def ScanInv (p : Nat) (spans : List DocSpan) (k : Nat) : Option (ℚ × Nat) → Prop
  | none => ∀ j s, j < k → spans.get? j = some s → ¬ spanContains s p
  | some (sc, i) =>
      i < k ∧
      (∃ s, spans.get? i = some s ∧ spanContains s p ∧ sc = spanScore s p) ∧
      (∀ j t, j < k → spans.get? j = some t → spanContains t p →
        spanScore t p ≤ sc ∧ (spanScore t p = sc → i ≤ j))

/-- Scanning the remaining spans preserves the invariant up to the end of the
list. -/
theorem checkAux_inv (p : Nat) (spans : List DocSpan) :
    ∀ (tail : List DocSpan) (k : Nat) (acc : Option (ℚ × Nat)),
      spans.drop k = tail → ScanInv p spans k acc →
      ScanInv p spans spans.length (checkAux p (tail.enumFrom k) acc) := by
  intro tail
  induction tail with
  | nil =>
    intro k acc hdrop hinv
    simp only [List.enumFrom, checkAux]
    have hlen : spans.length ≤ k := by
      have := congrArg List.length hdrop
      simp only [List.length_drop, List.length_nil] at this
      omega
    cases acc with
    | none =>
      simp only [ScanInv] at hinv ⊢
      intro j s hj hs
      exact hinv j s (by omega) hs
    | some pair =>
      obtain ⟨sc, i⟩ := pair
      simp only [ScanInv] at hinv ⊢
      obtain ⟨hik, ⟨s, hs, hc1, hc2⟩, hbest⟩ := hinv
      have hilen : i < spans.length := by
        by_contra hge
        rw [List.get?_eq_none.mpr (by omega)] at hs
        cases hs
      exact ⟨hilen, ⟨s, hs, hc1, hc2⟩, fun j t hj ht hc => hbest j t (by omega) ht hc⟩
  | cons s rest ih =>
    intro k acc hdrop hinv
    have hk : spans.get? k = some s := by
      have h0 : (spans.drop k).get? 0 = some s := by rw [hdrop]; rfl
      rw [List.get?_drop] at h0
      simpa using h0
    have hdrop' : spans.drop (k + 1) = rest := by
      have h1 : spans.drop (k + 1) = (spans.drop k).drop 1 := by
        rw [List.drop_drop, Nat.add_comm]
      rw [h1, hdrop, List.drop_one, List.tail_cons]
    rw [List.enumFrom_cons]
    simp only [checkAux]
    by_cases hc : spanContains s p
    · rw [if_pos hc]
      cases acc with
      | none =>
        dsimp only
        apply ih (k + 1) _ hdrop'
        simp only [ScanInv] at hinv ⊢
        refine ⟨by omega, ⟨s, hk, hc, rfl⟩, ?_⟩
        intro j t hj ht hcont
        rcases Nat.lt_succ_iff_lt_or_eq.mp hj with hj' | hj'
        · exact absurd hcont (hinv j t hj' ht)
        · subst hj'
          rw [hk] at ht
          cases ht
          exact ⟨le_refl _, fun _ => le_refl _⟩
      | some pair =>
        obtain ⟨bs, bi⟩ := pair
        dsimp only
        simp only [ScanInv] at hinv
        obtain ⟨hbik, ⟨sb, hsb, hsbc, hsc⟩, hbest⟩ := hinv
        by_cases hlt : bs < spanScore s p
        · rw [if_pos hlt]
          apply ih (k + 1) _ hdrop'
          simp only [ScanInv]
          refine ⟨by omega, ⟨s, hk, hc, rfl⟩, ?_⟩
          intro j t hj ht hcont
          rcases Nat.lt_succ_iff_lt_or_eq.mp hj with hj' | hj'
          · have hle := (hbest j t hj' ht hcont).1
            refine ⟨le_of_lt (lt_of_le_of_lt hle hlt), fun heq => ?_⟩
            exact absurd (heq ▸ lt_of_le_of_lt hle hlt) (lt_irrefl _)
          · subst hj'
            rw [hk] at ht
            cases ht
            exact ⟨le_refl _, fun _ => le_refl _⟩
        · rw [if_neg hlt]
          apply ih (k + 1) _ hdrop'
          simp only [ScanInv]
          refine ⟨by omega, ⟨sb, hsb, hsbc, hsc⟩, ?_⟩
          intro j t hj ht hcont
          rcases Nat.lt_succ_iff_lt_or_eq.mp hj with hj' | hj'
          · exact hbest j t hj' ht hcont
          · subst hj'
            rw [hk] at ht
            cases ht
            exact ⟨not_lt.mp hlt, fun _ => le_of_lt hbik⟩
    · rw [if_neg hc]
      apply ih (k + 1) _ hdrop'
      cases acc with
      | none =>
        simp only [ScanInv] at hinv ⊢
        intro j t hj ht
        rcases Nat.lt_succ_iff_lt_or_eq.mp hj with hj' | hj'
        · exact hinv j t hj' ht
        · subst hj'
          rw [hk] at ht
          cases ht
          exact hc
      | some pair =>
        obtain ⟨bs, bi⟩ := pair
        simp only [ScanInv] at hinv ⊢
        obtain ⟨hbik, hex, hbest⟩ := hinv
        refine ⟨by omega, hex, ?_⟩
        intro j t hj ht hcont
        rcases Nat.lt_succ_iff_lt_or_eq.mp hj with hj' | hj'
        · exact hbest j t hj' ht hcont
        · subst hj'
          rw [hk] at ht
          cases ht
          exact absurd hcont hc

/-- C4: for every span list and every position p contained in at least one
span, there is exactly one span index for which _check_is_max_context is
true, and it is the index of a span containing p whose score
min(left_context, right_context) + 0.01 * span_length is maximal among all
spans containing p, the first such span on ties (any tie has index >= b). -/
theorem C4_max_context_unique (spans : List DocSpan) (p : Nat)
    (hcov : ∃ j s, spans.get? j = some s ∧ spanContains s p) :
    ∃ b sb, spans.get? b = some sb ∧ spanContains sb p ∧
      (∀ i, _check_is_max_context spans i p = true ↔ i = b) ∧
      (∀ j t, spans.get? j = some t → spanContains t p →
        spanScore t p ≤ spanScore sb p ∧
          (spanScore t p = spanScore sb p → b ≤ j)) := by
  have hinv := checkAux_inv p spans spans 0 none rfl
    (by
      simp only [ScanInv]
      intro j s hj
      omega)
  cases hres : checkAux p (spans.enumFrom 0) none with
  | none =>
    rw [hres] at hinv
    simp only [ScanInv] at hinv
    obtain ⟨j, s, hjs, hcont⟩ := hcov
    have hjlen : j < spans.length := by
      by_contra hge
      rw [List.get?_eq_none.mpr (by omega)] at hjs
      cases hjs
    exact absurd hcont (hinv j s hjlen hjs)
  | some pair =>
    obtain ⟨sc, b⟩ := pair
    rw [hres] at hinv
    simp only [ScanInv] at hinv
    obtain ⟨hblen, ⟨sb, hsb, hsbc, hsc⟩, hbest⟩ := hinv
    refine ⟨b, sb, hsb, hsbc, ?_, ?_⟩
    · intro i
      unfold _check_is_max_context
      rw [show spans.enum = spans.enumFrom 0 from rfl, hres]
      simp [eq_comm]
    · intro j t hjt hcont
      have hjlen : j < spans.length := by
        by_contra hge
        rw [List.get?_eq_none.mpr (by omega)] at hjt
        cases hjt
      have h := hbest j t hjlen hjt hcont
      rw [hsc] at h
      exact h

/-- C4, witness: spans (0,3) and (2,3), position 2 (contained in both); the
theorem produces the unique max-context flag. -/
theorem C4_max_context_unique_witness :
    ∃ b sb, [DocSpan.mk 0 3, DocSpan.mk 2 3].get? b = some sb ∧
      spanContains sb 2 ∧
      (∀ i, _check_is_max_context [DocSpan.mk 0 3, DocSpan.mk 2 3] i 2 = true ↔ i = b) ∧
      (∀ j t, [DocSpan.mk 0 3, DocSpan.mk 2 3].get? j = some t → spanContains t 2 →
        spanScore t 2 ≤ spanScore sb 2 ∧
          (spanScore t 2 = spanScore sb 2 → b ≤ j)) :=
  C4_max_context_unique [DocSpan.mk 0 3, DocSpan.mk 2 3] 2
    ⟨0, DocSpan.mk 0 3, rfl, by decide⟩

/-! ### Claim C9 -/

/-- The strict rank order realized by the stable descending sort of
enumerated scores: higher score first, ties by lower original index. -/
def rankRel (a b : Nat × ℚ) : Prop := b.2 < a.2 ∨ (a.2 = b.2 ∧ a.1 < b.1)

theorem mem_insertDesc (x y : Nat × ℚ) (l : List (Nat × ℚ)) :
    y ∈ insertDesc x l ↔ y = x ∨ y ∈ l := by
  induction l with
  | nil => simp [insertDesc]
  | cons z zs ih =>
    simp only [insertDesc]
    by_cases h : x.2 ≤ z.2
    · rw [if_pos h]
      rw [List.mem_cons, ih, List.mem_cons]
      tauto
    · rw [if_neg h]
      exact List.mem_cons

theorem insertDesc_perm (x : Nat × ℚ) (l : List (Nat × ℚ)) :
    List.Perm (insertDesc x l) (x :: l) := by
  induction l with
  | nil => exact List.Perm.refl _
  | cons z zs ih =>
    simp only [insertDesc]
    by_cases h : x.2 ≤ z.2
    · rw [if_pos h]
      exact (ih.cons z).trans (List.Perm.swap x z zs)
    · rw [if_neg h]

theorem foldl_insertDesc_perm (l : List (Nat × ℚ)) :
    ∀ acc : List (Nat × ℚ),
      List.Perm (l.foldl (fun a x => insertDesc x a) acc) (acc ++ l) := by
  induction l with
  | nil => intro acc; simp
  | cons x xs ih =>
    intro acc
    simp only [List.foldl_cons]
    refine ((ih (insertDesc x acc)).trans ?_)
    refine (List.Perm.append_right xs (insertDesc_perm x acc)).trans ?_
    exact List.perm_middle.symm

theorem sortDescStable_perm (l : List (Nat × ℚ)) :
    List.Perm (sortDescStable l) l := by
  have h := foldl_insertDesc_perm l []
  simpa [sortDescStable] using h

theorem pairwise_insertDesc (x : Nat × ℚ) (l : List (Nat × ℚ))
    (hl : List.Pairwise rankRel l) (hidx : ∀ y ∈ l, y.1 < x.1) :
    List.Pairwise rankRel (insertDesc x l) := by
  induction l with
  | nil => simp [insertDesc]
  | cons z zs ih =>
    obtain ⟨hz, hzs⟩ := List.pairwise_cons.mp hl
    simp only [insertDesc]
    by_cases h : x.2 ≤ z.2
    · rw [if_pos h]
      refine List.pairwise_cons.mpr
        ⟨?_, ih hzs (fun y hy => hidx y (List.mem_cons_of_mem _ hy))⟩
      intro y hy
      rcases (mem_insertDesc x y zs).mp hy with rfl | hy'
      · rcases lt_or_eq_of_le h with hlt | heq
        · exact Or.inl hlt
        · exact Or.inr ⟨heq.symm, hidx z (List.mem_cons_self _ _)⟩
      · exact hz y hy'
    · rw [if_neg h]
      push_neg at h
      refine List.pairwise_cons.mpr ⟨?_, hl⟩
      intro y hy
      rcases List.mem_cons.mp hy with rfl | hy'
      · exact Or.inl h
      · have hle : y.2 ≤ z.2 := by
          rcases hz y hy' with h1 | ⟨h1, _⟩
          · exact le_of_lt h1
          · exact le_of_eq h1.symm
        exact Or.inl (lt_of_le_of_lt hle h)

/-- Folding the enumeration of the scores from index k onto a sorted
accumulator of smaller indices keeps the result rank-sorted. -/
theorem sortEnum_pairwise (vals : List ℚ) :
    ∀ (k : Nat) (acc : List (Nat × ℚ)),
      List.Pairwise rankRel acc → (∀ y ∈ acc, y.1 < k) →
      List.Pairwise rankRel
        ((vals.enumFrom k).foldl (fun a x => insertDesc x a) acc) := by
  induction vals with
  | nil =>
    intro k acc h1 _
    simpa using h1
  | cons a as ih =>
    intro k acc h1 h2
    rw [List.enumFrom_cons]
    simp only [List.foldl_cons]
    refine ih (k + 1) (insertDesc (k, a) acc) (pairwise_insertDesc _ _ h1 h2) ?_
    intro y hy
    rcases (mem_insertDesc _ y acc).mp hy with rfl | hy'
    · omega
    · exact Nat.lt_succ_of_lt (h2 y hy')

/-- C9: _get_best_indexes returns exactly min(k, len(scores)) indices (empty
for k <= 0), without duplicates, all in range, ordered by descending score
with ties broken by ascending original index, and every returned index
scores at least as high as every index left out. -/
theorem C9_best_indexes (logits : List ℚ) (k : Int) :
    (_get_best_indexes logits k).length = min k.toNat logits.length ∧
    (k ≤ 0 → _get_best_indexes logits k = []) ∧
    (_get_best_indexes logits k).Nodup ∧
    (∀ i ∈ _get_best_indexes logits k, i < logits.length) ∧
    List.Pairwise
      (fun a b => logits.getD b 0 < logits.getD a 0 ∨
        (logits.getD a 0 = logits.getD b 0 ∧ a < b))
      (_get_best_indexes logits k) ∧
    (∀ a ∈ _get_best_indexes logits k, ∀ j, j < logits.length →
      j ∉ _get_best_indexes logits k → logits.getD j 0 ≤ logits.getD a 0) := by
  have hperm : List.Perm (sortDescStable logits.enum) logits.enum := sortDescStable_perm _
  have hpair : List.Pairwise rankRel (sortDescStable logits.enum) := by
    have h := sortEnum_pairwise logits 0 [] (List.Pairwise.nil) (by simp)
    simpa [sortDescStable, List.enum] using h
  have hmemS : ∀ y ∈ sortDescStable logits.enum, logits.get? y.1 = some y.2 := by
    intro y hy
    have hyenum : y ∈ logits.enum := hperm.subset hy
    rw [List.mem_enum_iff_get?] at hyenum
    exact hyenum
  have hidxS : ∀ y ∈ sortDescStable logits.enum, y.1 < logits.length := by
    intro y hy
    have h := hmemS y hy
    by_contra hge
    rw [List.get?_eq_none.mpr (by omega)] at h
    cases h
  have hvalS : ∀ y ∈ sortDescStable logits.enum, logits.getD y.1 0 = y.2 := by
    intro y hy
    have h := hmemS y hy
    rw [List.getD_eq_get?, h]
    rfl
  have hlenS : (sortDescStable logits.enum).length = logits.length := by
    rw [hperm.length_eq, List.enum_length]
  refine ⟨?_, ?_, ?_, ?_, ?_, ?_⟩
  · rw [_get_best_indexes, List.length_take, List.length_map, hlenS]
  · intro hk
    rw [_get_best_indexes, Int.toNat_of_nonpos hk, List.take_zero]
  · rw [_get_best_indexes]
    refine (List.take_sublist _ _).nodup ?_
    have hpm : List.Perm ((sortDescStable logits.enum).map Prod.fst)
        (logits.enum.map Prod.fst) :=
      hperm.map _
    exact hpm.nodup_iff.mpr (List.nodup_enum_map_fst _)
  · intro i hi
    rw [_get_best_indexes] at hi
    have hi' := List.take_subset _ _ hi
    obtain ⟨y, hy, rfl⟩ := List.mem_map.mp hi'
    exact hidxS y hy
  · rw [_get_best_indexes, ← List.map_take]
    refine List.pairwise_map.mpr ?_
    have hp : List.Pairwise rankRel
        ((sortDescStable logits.enum).take k.toNat) :=
      hpair.sublist (List.take_sublist _ _)
    refine hp.imp_of_mem ?_
    intro a b ha hb hr
    have hva := hvalS a (List.take_subset _ _ ha)
    have hvb := hvalS b (List.take_subset _ _ hb)
    rcases hr with h1 | ⟨h1, h2⟩
    · exact Or.inl (by rw [hva, hvb]; exact h1)
    · exact Or.inr ⟨by rw [hva, hvb]; exact h1, h2⟩
  · intro a ha j hj hnj
    rw [_get_best_indexes, ← List.map_take] at ha hnj
    obtain ⟨ya, hya, rfl⟩ := List.mem_map.mp ha
    have hyj : (j, logits.getD j 0) ∈ sortDescStable logits.enum := by
      refine hperm.mem_iff.mpr ?_
      rw [List.mem_enum_iff_get?]
      show logits.get? j = some (logits.getD j 0)
      rw [List.getD_eq_get?]
      cases hg : logits.get? j with
      | none =>
        rw [List.get?_eq_none] at hg
        omega
      | some v => rfl
    have hsplit := List.take_append_drop k.toNat (sortDescStable logits.enum)
    have hyj' : (j, logits.getD j 0) ∈
        (sortDescStable logits.enum).take k.toNat ++
        (sortDescStable logits.enum).drop k.toNat := by
      rw [hsplit]; exact hyj
    rcases List.mem_append.mp hyj' with hin | hin
    · exact absurd (List.mem_map.mpr ⟨_, hin, rfl⟩) hnj
    · have hpairS : List.Pairwise rankRel
          ((sortDescStable logits.enum).take k.toNat ++
           (sortDescStable logits.enum).drop k.toNat) := by
        rw [hsplit]; exact hpair
      have hr := (List.pairwise_append.mp hpairS).2.2 ya hya _ hin
      have hva := hvalS ya (List.take_subset _ _ hya)
      rcases hr with h1 | ⟨h1, _⟩
      · rw [← hva] at h1
        exact le_of_lt h1
      · rw [← hva] at h1
        exact le_of_eq h1.symm

/-! ### Claim C6 -/

/-- C6: the Text Reconstructor is total (a Lean function — it never raises)
and (1) always returns either orig_text unchanged or a contiguous inclusive
slice of it; (2) returns orig_text when pred_text does not occur in the
re-tokenized text; (3) returns orig_text when the space-stripped lengths
differ; (4) returns orig_text when the start- or end-position mapping is
missing; (5) when every alignment stage succeeds, returns the inclusive
slice of orig_text between the translated start and end positions. -/
theorem C6_get_final_text_fallback (bt : Bool → List Char → List (List Char))
    (lc : Bool) (pred orig : List Char) :
    (_get_final_text bt lc pred orig = orig ∨
      ∃ a b, _get_final_text bt lc pred orig = (orig.take (b + 1)).drop a) ∧
    (listFind (tokTextOf bt lc orig) pred = none →
      _get_final_text bt lc pred orig = orig) ∧
    ((stripSpaces orig).1.length ≠ (stripSpaces (tokTextOf bt lc orig)).1.length →
      _get_final_text bt lc pred orig = orig) ∧
    (∀ sp, listFind (tokTextOf bt lc orig) pred = some sp →
      (dictGetI (invertMap (stripSpaces (tokTextOf bt lc orig)).2) (sp : Int) = none ∨
        dictGetI (invertMap (stripSpaces (tokTextOf bt lc orig)).2)
          ((sp : Int) + (pred.length : Int) - 1) = none) →
      _get_final_text bt lc pred orig = orig) ∧
    (∀ sp ns_s o_s ns_e o_e,
      listFind (tokTextOf bt lc orig) pred = some sp →
      (stripSpaces orig).1.length = (stripSpaces (tokTextOf bt lc orig)).1.length →
      dictGetI (invertMap (stripSpaces (tokTextOf bt lc orig)).2) (sp : Int)
        = some ns_s →
      (stripSpaces orig).2.get? ns_s = some o_s →
      dictGetI (invertMap (stripSpaces (tokTextOf bt lc orig)).2)
        ((sp : Int) + (pred.length : Int) - 1) = some ns_e →
      (stripSpaces orig).2.get? ns_e = some o_e →
      _get_final_text bt lc pred orig = (orig.take (o_e + 1)).drop o_s) := by
  refine ⟨?_, ?_, ?_, ?_, ?_⟩
  · simp only [_get_final_text]
    cases h1 : listFind (tokTextOf bt lc orig) pred with
    | none => exact Or.inl rfl
    | some sp =>
      dsimp only
      by_cases h2 : (stripSpaces orig).1.length
          ≠ (stripSpaces (tokTextOf bt lc orig)).1.length
      · rw [if_pos h2]
        exact Or.inl rfl
      · rw [if_neg h2]
        cases h3 : dictGetI (invertMap (stripSpaces (tokTextOf bt lc orig)).2)
            (sp : Int) with
        | none => exact Or.inl rfl
        | some ns_s =>
          dsimp only
          cases h4 : (stripSpaces orig).2.get? ns_s with
          | none => exact Or.inl rfl
          | some o_s =>
            dsimp only
            cases h5 : dictGetI (invertMap (stripSpaces (tokTextOf bt lc orig)).2)
                ((sp : Int) + (pred.length : Int) - 1) with
            | none => exact Or.inl rfl
            | some ns_e =>
              dsimp only
              cases h6 : (stripSpaces orig).2.get? ns_e with
              | none => exact Or.inl rfl
              | some o_e => exact Or.inr ⟨o_s, o_e, rfl⟩
  · intro h
    simp only [_get_final_text, h]
  · intro h
    simp only [_get_final_text]
    cases h1 : listFind (tokTextOf bt lc orig) pred with
    | none => rfl
    | some sp =>
      dsimp only
      rw [if_pos h]
  · intro sp hfind hdisj
    simp only [_get_final_text, hfind]
    by_cases h2 : (stripSpaces orig).1.length
        ≠ (stripSpaces (tokTextOf bt lc orig)).1.length
    · rw [if_pos h2]
    · rw [if_neg h2]
      rcases hdisj with hd | hd
      · rw [hd]
      · cases h3 : dictGetI (invertMap (stripSpaces (tokTextOf bt lc orig)).2)
            (sp : Int) with
        | none => rfl
        | some ns_s =>
          dsimp only
          cases h4 : (stripSpaces orig).2.get? ns_s with
          | none => rfl
          | some o_s =>
            dsimp only
            rw [hd]
  · intro sp ns_s o_s ns_e o_e hfind hlen hd1 hg1 hd2 hg2
    simp only [_get_final_text, hfind, hd1, hg1, hd2, hg2]
    rw [if_neg (by omega)]

/-- C6, witness: a predicted text absent from the re-tokenized original
triggers the unchanged-text fallback at a concrete input. -/
theorem C6_get_final_text_fallback_witness :
    _get_final_text (fun _ s => [s]) true ['z'] ['a', 'b'] = ['a', 'b'] :=
  (C6_get_final_text_fallback (fun _ s => [s]) true ['z'] ['a', 'b']).2.1
    (by decide)

/-! ### Claim C7 -/

/-- The exact conditions under which buildExampleCore raises: only in
training answerable mode, when one of the two char_to_word_offset lookups is
out of range. -/
theorem buildExampleCore_error (inp : QAInput) (d_tokens : List String)
    (c2w : List Int) (s : Int) (t : String) (b : Bool) :
    buildExampleCore inp d_tokens c2w s t b = BuildResult.error ↔
      (b = true ∧ inp.is_impossible = false ∧
        (pyGet c2w s = none ∨ pyGet c2w (s + (t.length : Int) - 1) = none)) := by
  unfold buildExampleCore
  by_cases hb : b
  · subst hb
    simp only [if_true, true_and]
    by_cases himp : inp.is_impossible
    · simp [himp]
    · have himp' : inp.is_impossible = false := by
        simpa using himp
      simp only [himp', if_false, Bool.false_eq_true, true_and]
      cases hp : pyGet c2w s with
      | none => simp
      | some sp =>
        cases hq : pyGet c2w (s + (t.length : Int) - 1) with
        | none => simp
        | some ep =>
          dsimp only
          split <;> simp
  · have hb' : b = false := by simpa using hb
    subst hb'
    simp

/-- The exact raise condition of _create_qa_example, given the shape of the
answer field. -/
def raisesCondition (inp : QAInput) (b : Bool) : Prop :=
  match inp.answers with
  | AnswerField.scalar a_start a_text =>
      b = true ∧ inp.is_impossible = false ∧
        (pyGet (docTokenize inp.doc_text).2 a_start = none ∨
         pyGet (docTokenize inp.doc_text).2
           (a_start + (a_text.length : Int) - 1) = none)
  | AnswerField.coll ps =>
      (ps.length ≠ 1 ∧ b = true ∧ inp.is_impossible = false) ∨
      ps = [] ∨
      (b = true ∧ inp.is_impossible = false ∧
        match ps.head? with
        | some pr =>
            pyGet (docTokenize inp.doc_text).2 pr.1 = none ∨
            pyGet (docTokenize inp.doc_text).2
              (pr.1 + (pr.2.length : Int) - 1) = none
        | none => True)

/-- C7, counterexample: the claim says no error is raised in inference mode,
but an empty answer collection raises IndexError at `a_start[0]` even with
is_training = False. -/
theorem C7_empty_collection_inference_raises :
    _create_qa_example ⟨"ab", "q", AnswerField.coll [], 7, false⟩ false
      = BuildResult.error := by
  decide

/-- C7, amended: construction raises exactly when (a) the answer field is a
non-string collection of length != 1 in training answerable mode, or (b) the
collection is empty (IndexError at a_start[0], any mode), or (c) in training
answerable mode the (unwrapped) answer character offsets fall outside the
document's Python index range (IndexError at char_to_word_offset[...]); and
a one-element collection behaves exactly as its unwrapped scalar. -/
theorem C7_raise_characterization (inp : QAInput) (b : Bool) :
    (_create_qa_example inp b = BuildResult.error ↔ raisesCondition inp b) ∧
    (∀ (d q : String) (qid : Nat) (imp : Bool) (s : Int) (t : String),
      _create_qa_example ⟨d, q, AnswerField.coll [(s, t)], qid, imp⟩ b =
      _create_qa_example ⟨d, q, AnswerField.scalar s t, qid, imp⟩ b) := by
  constructor
  · obtain ⟨doc, qt, ans, qid, imp⟩ := inp
    cases ans with
    | scalar a_start a_text =>
      simp only [_create_qa_example, raisesCondition]
      exact buildExampleCore_error _ _ _ _ _ _
    | coll ps =>
      simp only [_create_qa_example, raisesCondition]
      by_cases hc : ps.length ≠ 1 ∧ b = true ∧ imp = false
      · rw [if_pos hc]
        exact ⟨fun _ => Or.inl hc, fun _ => rfl⟩
      · rw [if_neg hc]
        cases ps with
        | nil =>
          simp
        | cons pr rest =>
          obtain ⟨s, t⟩ := pr
          dsimp only
          rw [buildExampleCore_error]
          simp only [List.head?_cons]
          constructor
          · rintro ⟨hb, himp, hor⟩
            exact Or.inr (Or.inr ⟨hb, himp, hor⟩)
          · rintro (h | h | h)
            · exact absurd h hc
            · cases h
            · exact h
  · intro d q qid imp s t
    rfl

/-- C7, witness: a two-element answer collection in training answerable mode
satisfies the raise condition, and the characterization yields the raised
error at this concrete input. -/
theorem C7_raise_characterization_witness :
    _create_qa_example
      ⟨"ab", "q", AnswerField.coll [(0, "a"), (1, "b")], 7, false⟩ true
      = BuildResult.error :=
  (C7_raise_characterization
    ⟨"ab", "q", AnswerField.coll [(0, "a"), (1, "b")], 7, false⟩ true).1.mpr
    (Or.inl ⟨by decide, rfl, rfl⟩)

/-! ### Claim C8 -/

/-- C8, counterexample: the claim says a training answerable input whose
answer cannot be recovered is silently dropped with no exception, for every
such input; but with document "ab" and answer_text "abc" (answer_start 0)
the end-character lookup char_to_word_offset[0 + 3 - 1] is out of range and
the builder raises IndexError instead of dropping. -/
theorem C8_out_of_range_raises :
    _create_qa_example ⟨"ab", "q", AnswerField.scalar 0 "abc", 7, false⟩ true
      = BuildResult.error := by
  decide

/-- C8, amended: for training answerable inputs whose character offsets are
within the document's index range (both char_to_word_offset lookups
succeed), the builder returns nothing (dropped, no exception) exactly when
the space-join of doc_tokens[start_token..=end_token] does not contain the
whitespace-normalized answer text, and otherwise returns the Example with
those token positions. -/
theorem C8_drop_or_keep (d q : String) (qid : Nat) (s : Int) (t : String)
    (sp ep : Int)
    (h1 : pyGet (docTokenize d).2 s = some sp)
    (h2 : pyGet (docTokenize d).2 (s + (t.length : Int) - 1) = some ep) :
    (listFind
        (String.intercalate " " (pySlice (docTokenize d).1 sp (ep + 1))).data
        (String.intercalate " " (whitespace_tokenize t)).data = none →
      _create_qa_example ⟨d, q, AnswerField.scalar s t, qid, false⟩ true
        = BuildResult.dropped) ∧
    (∀ r, listFind
        (String.intercalate " " (pySlice (docTokenize d).1 sp (ep + 1))).data
        (String.intercalate " " (whitespace_tokenize t)).data = some r →
      _create_qa_example ⟨d, q, AnswerField.scalar s t, qid, false⟩ true
        = BuildResult.ok ⟨qid, (docTokenize d).1, q, t, some sp, some ep, false⟩) := by
  simp only [_create_qa_example, buildExampleCore, if_true, Bool.false_eq_true,
    if_false, h1, h2]
  constructor
  · intro hnone
    rw [if_pos hnone]
  · intro r hr
    rw [if_neg (by rw [hr]; exact fun h => Option.noConfusion h)]

/-- C8, witness: the Mary-had-a-little-lamb input with answer_start 9, where
the answer is recovered and the Example is kept. -/
theorem C8_drop_or_keep_witness :
    _create_qa_example
      ⟨"Mary had a little lamb", "What did Mary have?",
        AnswerField.scalar 9 "a little lamb", 3, false⟩ true
      = BuildResult.ok
          ⟨3, (docTokenize "Mary had a little lamb").1, "What did Mary have?",
            "a little lamb", some 2, some 4, false⟩ :=
  (C8_drop_or_keep "Mary had a little lamb" "What did Mary have?" 3 9
    "a little lamb" 2 4 (by decide) (by decide)).2 0 (by decide)

/-- C9, witness: the characterization applied at scores [1, 3, 3, 2] with
k = 3 (top indices [1, 2, 3]: the tied 3s by ascending index, then the 2). -/
theorem C9_best_indexes_witness :
    _get_best_indexes [(1 : ℚ), 3, 3, 2] 3 = [1, 2, 3] ∧
    (_get_best_indexes [(1 : ℚ), 3, 3, 2] 3).length = min (Int.toNat 3) 4 :=
  ⟨by decide, by rw [(C9_best_indexes [(1 : ℚ), 3, 3, 2] 3).1]; rfl⟩

end QA
